import Mathlib

/-
Verification of the keycap_playground rendering pipeline: the keycap
parameter model and its serialization into an OpenSCAD invocation string,
the job planner of src/keyplay.py (skip-if-exists and legend companions),
and the semaphore-bounded concurrent runner.

The Keycap class and the riskeycap specializations (src/keycap.py and
src/riskeycap.py) are not present in the tree; only their tests and their
caller src/keyplay.py are.  Definitions for those parts are modelled from
the spec, with the exact list formats pinned by the repository tests.
All planner and runner definitions are translated from src/keyplay.py.
-/

/-- A numeric parameter, carried as its decimal literal.  The serializer
echoes numbers in decimal with no forced precision beyond that of the input,
so no floating-point semantics is needed beyond the literal text. -/
structure NumLit where
  lit : String
deriving DecidableEq, Repr

/-- The single-quote character as a one-character string. -/
def squote : String := String.singleton '\''

/-- The double-quote character as a one-character string. -/
def dquote : String := String.singleton '"'

/-- Substring test on the underlying character lists: does pat occur
contiguously inside the first argument? -/
def hasInfixL : List Char → List Char → Bool
  | [], pat => pat.isEmpty
  | c :: cs, pat => pat.isPrefixOf (c :: cs) || hasInfixL cs pat

/-- Substring test on strings: strContains s pat is true when pat occurs
contiguously inside s. -/
def strContains (s pat : String) : Bool := hasInfixL s.data pat.data

theorem hasInfixL_iff (l pat : List Char) : hasInfixL l pat = true ↔ pat <:+: l := by
  induction l with
  | nil => simp [hasInfixL, List.isEmpty_iff, List.infix_nil]
  | cons c cs ih =>
    simp [hasInfixL, ih, List.infix_cons_iff]

theorem strContains_iff (s pat : String) :
    strContains s pat = true ↔ pat.data <:+: s.data := hasInfixL_iff _ _

theorem data_append (s t : String) : (s ++ t).data = s.data ++ t.data := by
  cases s; cases t; rfl

theorem strContains_of_eq (s pre pat suf : String)
    (h : s.data = pre.data ++ pat.data ++ suf.data) : strContains s pat = true := by
  rw [strContains_iff, h]
  exact List.infix_append _ _ _

theorem strContains_app_l (a s pat : String) (h : strContains s pat = true) :
    strContains (a ++ s) pat = true := by
  rw [strContains_iff] at h ⊢
  rw [data_append]
  exact h.trans (List.suffix_append _ _).isInfix

theorem strContains_app_r (s b pat : String) (h : strContains s pat = true) :
    strContains (s ++ b) pat = true := by
  rw [strContains_iff] at h ⊢
  rw [data_append]
  exact h.trans (List.prefix_append _ _).isInfix

theorem strContains_mono (big s pat : String) (h1 : strContains s pat = true)
    (h2 : strContains big s = true) : strContains big pat = true := by
  rw [strContains_iff] at h1 h2 ⊢
  exact h1.trans h2

/-- Python str.join on a separator: concatenate the strings with sep between
consecutive elements. -/
def sepJoin (sep : String) : List String → String
  | [] => ""
  | [x] => x
  | x :: y :: xs => x ++ sep ++ sepJoin sep (y :: xs)

/-- Modelled from the spec: the shell escape of a single quote, the
close-quote/escaped-quote/reopen-quote idiom used by Keycap.quote
(src/keycap.py is not in the tree). -/
def escSeq : List Char := ['\'', '"', '\'', '"', '\'']

/-- Replace every single quote of a character list by escSeq, leaving every
other character unchanged. -/
def escapeList : List Char → List Char
  | [] => []
  | c :: cs => (if c = '\'' then escSeq else [c]) ++ escapeList cs

/-- Modelled from the spec: the single-quote escaping applied to each string
value before it is embedded in the invocation (src/keycap.py is not in the
tree). -/
def escapeQuotes (s : String) : String := ⟨escapeList s.data⟩

/-- Modelled from the spec: Keycap.quote, the formatting used by the serializer for the
legends list (src/keycap.py is not in the tree): elements individually
double-quoted, joined by a comma with no following space, single quotes
escaped for the shell. -/
def quote (legends : List String) : String :=
  "[" ++ sepJoin "," (legends.map (fun l => dquote ++ escapeQuotes l ++ dquote)) ++ "]"

/-- Modelled from the spec and pinned by the repository tests: the other
list-of-strings attributes (render, fonts) are bracketed, elements
double-quoted, with a single space after each comma; single quotes inside
any string value are escaped per spec section 4.2. -/
def strList (xs : List String) : String :=
  "[" ++ sepJoin ", " (xs.map (fun x => dquote ++ escapeQuotes x ++ dquote)) ++ "]"

/-- Modelled from the spec: list-of-numeric attributes are bracketed with a
single space after each comma. -/
def numList (xs : List NumLit) : String :=
  "[" ++ sepJoin ", " (xs.map NumLit.lit) ++ "]"

/-- Modelled from the spec: list-of-list attributes are bracketed with a
single space after each comma between the inner lists. -/
def numListList (xss : List (List NumLit)) : String :=
  "[" ++ sepJoin ", " (xss.map numList) ++ "]"

/-- OpenSCAD boolean literals are lowercase. -/
def pybool (b : Bool) : String := if b then "true" else "false"

/-- A double-quoted scalar string value; single quotes inside any string
value are escaped per spec section 4.2. -/
def qstr (s : String) : String := dquote ++ escapeQuotes s ++ dquote

/-- The Keycap entity of the parameter model: a named bag of geometric and
legend attributes.  Field names mirror the Python attribute names used by
src/keyplay.py and the tests; output_path and file_type are the two fields
the planner mutates after construction. -/
structure Keycap where
  name : String
  key_profile : String := "riskeycap"
  key_height : NumLit := ⟨"8"⟩
  key_length : NumLit := ⟨"18.25"⟩
  dish_depth : NumLit := ⟨"1"⟩
  dish_thickness : NumLit := ⟨"1.0"⟩
  wall_thickness : NumLit := ⟨"1.125"⟩
  uniform_wall_thickness : Bool := true
  stem_type : String := "box_cherry"
  key_rotation : List NumLit := [⟨"0"⟩, ⟨"110.1"⟩, ⟨"-90"⟩]
  legends : List String := [""]
  fonts : List String := []
  font_sizes : List NumLit := []
  trans : List (List NumLit) := []
  rotation : List (List NumLit) := []
  render : List String := ["keycap", "stem"]
  output_path : String := "."
  file_type : String := "stl"
deriving DecidableEq, Repr

/-- One -D NAME=value fragment of the invocation, single-quoted for the
shell. -/
def dparam (n v : String) : String := " -D " ++ squote ++ n ++ "=" ++ v ++ squote

/-- The NAME=value pairs the serializer emits for a keycap, in order. -/
def params (k : Keycap) : List (String × String) :=
  [("KEY_PROFILE", qstr k.key_profile),
   ("KEY_HEIGHT", k.key_height.lit),
   ("KEY_LENGTH", k.key_length.lit),
   ("DISH_DEPTH", k.dish_depth.lit),
   ("DISH_THICKNESS", k.dish_thickness.lit),
   ("WALL_THICKNESS", k.wall_thickness.lit),
   ("UNIFORM_WALL_THICKNESS", pybool k.uniform_wall_thickness),
   ("STEM_TYPE", qstr k.stem_type),
   ("KEY_ROTATION", numList k.key_rotation),
   ("LEGENDS", quote k.legends),
   ("LEGEND_FONTS", strList k.fonts),
   ("LEGEND_FONT_SIZES", numList k.font_sizes),
   ("LEGEND_TRANS", numListList k.trans),
   ("LEGEND_ROTATION", numListList k.rotation),
   ("RENDER", strList k.render)]

/-- Concatenation of the -D fragments of a parameter list. -/
def sjoinParams : List (String × String) → String
  | [] => ""
  | (n, v) :: rest => dparam n v ++ sjoinParams rest

/-- Modelled from the spec: Keycap serialization into the external compiler
invocation (src/keycap.py is not in the tree).  The output file path is
built as outputPath/name.fileType; every attribute is passed as a -D
NAME=value pair whose per-attribute list format is pinned by the
repository tests.  The optional colorscad substitution is not modelled
since no claim depends on it. -/
def serialize (k : Keycap) : String :=
  "openscad -o " ++ squote ++ k.output_path ++ "/" ++ k.name ++ "." ++ k.file_type ++ squote
    ++ sjoinParams (params k)

theorem dparam_contains (n v : String) : strContains (dparam n v) (n ++ "=" ++ v) = true := by
  apply strContains_of_eq _ (" -D " ++ squote) (n ++ "=" ++ v) squote
  simp [dparam, data_append, List.append_assoc]

theorem sjoinParams_contains (l : List (String × String)) (n v : String)
    (h : (n, v) ∈ l) : strContains (sjoinParams l) (n ++ "=" ++ v) = true := by
  induction l with
  | nil => simp at h
  | cons p rest ih =>
    obtain ⟨pn, pv⟩ := p
    rcases List.mem_cons.mp h with h1 | h2
    · rw [Prod.mk.injEq] at h1
      obtain ⟨rfl, rfl⟩ := h1
      exact strContains_app_r _ _ _ (dparam_contains _ _)
    · exact strContains_app_l _ _ _ (ih h2)

theorem serialize_contains_param (k : Keycap) (n v : String) (h : (n, v) ∈ params k) :
    strContains (serialize k) (n ++ "=" ++ v) = true := by
  unfold serialize
  exact strContains_app_l _ _ _ (sjoinParams_contains _ _ _ h)

/-- Modelled from the spec: name derivation at Keycap construction
(src/keycap.py is not in the tree): if name is absent or None and the first
legend is non-empty, the name becomes that legend; else if legends is
absent (Python defaults it to a list holding one empty string) or equals
that default, the name becomes "keycap"; outside these cases the spec
leaves the name unresolved. -/
def constructedName (explicit : Option String) (legends : List String) : Option String :=
  match explicit with
  | some n => some n
  | none =>
    match legends.head? with
    | some l => if l ≠ "" then some l else if legends = [""] then some "keycap" else none
    | none => none

/-- Python str.startswith as a case-sensitive test on the character
lists. -/
def startswith (n tag : String) : Bool := tag.data.isPrefixOf n.data

/-- Modelled from the spec: the size-tag name transform of the riskeycap
specializations (src/riskeycap.py is not in the tree): the resolved name
gets the size tag prepended unless the tag is already present, checked by a
case-sensitive string-prefix test. -/
def prefixName (tag n : String) : String :=
  if startswith n tag then n else tag ++ n

/-- Count of non-overlapping occurrences of the quote escape sequence,
scanning left to right as Python str.count does. -/
def cntEsc : List Char → Nat
  | [] => 0
  | c :: cs =>
    if escSeq.isPrefixOf (c :: cs) then 1 + cntEsc (cs.drop 4) else cntEsc cs
termination_by l => l.length
decreasing_by
  · simp only [List.length_drop, List.length_cons]
    omega
  · simp

/-- The planner arguments of keyplay.make_commands: the output directory,
the requested names (empty meaning all), the legend flag, the force flag,
and the requested file type. -/
structure Args where
  out : String
  names : List String
  legends : Bool
  force : Bool
  file_type : String

/-- keyplay.should_skip_file: the artifact path is outputPath/name.fileType
and the render is skipped when force is off and the file exists.  The
filesystem is passed as an existence oracle. -/
def should_skip_file (fs : String → Bool) (output_path name file_type : String)
    (force : Bool) : Bool :=
  let file_path := output_path ++ "/" ++ name ++ "." ++ file_type
  !force && fs file_path

/-- keyplay.make_keycap_command: assigns output_path and file_type on the
keycap (the Python function mutates the object, so the updated keycap is
returned explicitly here), then serializes it unless the artifact exists
and force is off. -/
def make_keycap_command (fs : String → Bool) (keycap : Keycap)
    (output_path file_type : String) (force : Bool) : Keycap × Option String :=
  let keycap := { keycap with output_path := output_path, file_type := file_type }
  if should_skip_file fs output_path keycap.name file_type force then (keycap, none)
  else (keycap, some (serialize keycap))

/-- keyplay.make_legend_command: when the keycap has legends, derive the
legend companion — a deep copy with the name suffixed _legends, render
forced to ["legends"], and the fixed legend file type "stl" — and serialize
it unless its artifact exists and force is off.  The base keycap is
returned untouched, mirroring the deepcopy in the source. -/
def make_legend_command (fs : String → Bool) (keycap : Keycap)
    (output_path : String) (force : Bool) : Keycap × Option String :=
  if keycap.legends = [""] then (keycap, none)
  else
    let legend_name := keycap.name ++ "_legends"
    let legend_file_type := "stl"
    if should_skip_file fs output_path legend_name legend_file_type force then (keycap, none)
    else
      let legend := { keycap with
        name := legend_name
        output_path := output_path
        render := ["legends"]
        file_type := legend_file_type }
      (keycap, some (serialize legend))

/-- Python str.lower applied characterwise to the underlying character
list. -/
def lower (s : String) : String := ⟨s.data.map Char.toLower⟩

/-- One loop body of keyplay.process_specific_keycaps: scan the catalog for
the first keycap whose lowercased name matches the requested name, build
its commands, and stop there (the Python loop breaks at the first match).
Returns the updated catalog, the commands, and whether a match was
found. -/
def find_and_make (fs : String → Bool) (args : Args) (n : String) :
    List Keycap → List Keycap × List String × Bool
  | [] => ([], [], false)
  | k :: ks =>
    if lower k.name == lower n then
      let r1 := make_keycap_command fs k args.out args.file_type args.force
      let r2 := if args.legends then make_legend_command fs r1.1 args.out args.force
                else (r1.1, none)
      (r2.1 :: ks, r1.2.toList ++ r2.2.toList, true)
    else
      let rest := find_and_make fs args n ks
      (k :: rest.1, rest.2.1, rest.2.2)

/-- keyplay.process_specific_keycaps over an explicit list of requested
names: each name is looked up case-insensitively; an unmatched name
contributes one warning and nothing else. -/
def process_names (fs : String → Bool) (args : Args) :
    List String → List Keycap → List Keycap × List String × List String
  | [], ks => (ks, [], [])
  | n :: rest, ks =>
    let r1 := find_and_make fs args n ks
    let tail := process_names fs args rest r1.1
    let warn := if r1.2.2 then [] else ["Could not find a keycap named " ++ n]
    (tail.1, r1.2.1 ++ tail.2.1, warn ++ tail.2.2)

/-- keyplay.process_specific_keycaps. -/
def process_specific_keycaps (fs : String → Bool) (args : Args)
    (keycaps : List Keycap) : List Keycap × List String × List String :=
  process_names fs args args.names keycaps

/-- keyplay.process_all_keycaps: build the command, and when requested the
legend command, for every catalog entry in order. -/
def process_all_keycaps (fs : String → Bool) (args : Args) :
    List Keycap → List Keycap × List String
  | [] => ([], [])
  | k :: ks =>
    let r1 := make_keycap_command fs k args.out args.file_type args.force
    let r2 := if args.legends then make_legend_command fs r1.1 args.out args.force
              else (r1.1, none)
    let rest := process_all_keycaps fs args ks
    (r2.1 :: rest.1, r1.2.toList ++ r2.2.toList ++ rest.2)

/-- keyplay.make_commands, the planner: a non-empty requested-name list
selects specific keycaps (Python truthiness makes an empty list mean all).
The result is the updated catalog, the ordered invocation strings, and the
NotFound warnings. -/
def make_commands (fs : String → Bool) (args : Args) (keycaps : List Keycap) :
    List Keycap × List String × List String :=
  if args.names ≠ [] then process_specific_keycaps fs args keycaps
  else
    let r := process_all_keycaps fs args keycaps
    (r.1, r.2, [])

/-- The outcome of executing one invocation through the shell: its exit
code and the captured combined stdout and stderr text. -/
structure ProcResult where
  exitCode : Nat
  output : String
deriving DecidableEq, Repr

/-- keyplay.run_command over a world oracle mapping each command to its
process outcome: subprocess.check_output returns the captured combined
output on exit code zero and raises CalledProcessError otherwise; the
except branch logs and returns e.output, the same captured combined text,
so both branches yield the captured output and nothing propagates. -/
def run_command (world : String → ProcResult) (cmd : String) : String :=
  let r := world cmd
  if r.exitCode = 0 then r.output
  else r.output

/-- The results the batch collects: every planned invocation is executed
and its captured output kept; scheduling is covered by the runner
transition system below. -/
def run_batch (world : String → ProcResult) (cmds : List String) : List String :=
  cmds.map (run_command world)

/-- The scheduling state of one submitted invocation. -/
inductive TStatus
  | pending
  | running
  | done
deriving DecidableEq, Repr

/-- State of keyplay.run_all_commands: the semaphore counter, the status of
each submitted invocation listed in planned submission order, and the
indices of completed invocations in completion order as collected by
asyncio.as_completed. -/
structure RState where
  sem : Nat
  tasks : List TStatus
  results : List Nat
deriving DecidableEq, Repr

/-- How many submitted invocations are currently running. -/
def countRunning (ts : List TStatus) : Nat := ts.countP (fun s => s == TStatus.running)

/-- The steps of run_all_commands with run_command_on_loop: a pending task
starts only by acquiring the semaphore, and a finishing task releases the
semaphore and appends its index to the collected results. -/
inductive RStep : RState → RState → Prop
  | start (s : RState) (i : Nat) (h : s.tasks[i]? = some TStatus.pending)
      (hs : 0 < s.sem) :
      RStep s ⟨s.sem - 1, s.tasks.set i TStatus.running, s.results⟩
  | finish (s : RState) (i : Nat) (h : s.tasks[i]? = some TStatus.running) :
      RStep s ⟨s.sem + 1, s.tasks.set i TStatus.done, s.results ++ [i]⟩

/-- Initial runner state: the semaphore built as asyncio.Semaphore with the
max_processes capacity, all n planned invocations submitted and pending, no
results collected yet. -/
def initState (k n : Nat) : RState := ⟨k, List.replicate n TStatus.pending, []⟩

/-- The runner states reachable from the initial state. -/
inductive ReachableR (k n : Nat) : RState → Prop
  | init : ReachableR k n (initState k n)
  | step {s t : RState} : ReachableR k n s → RStep s t → ReachableR k n t

theorem startswith_append (tag n : String) : startswith (tag ++ n) tag = true := by
  simp [startswith, data_append, List.isPrefixOf_iff_prefix]

/-- C4: for every Variant constructed without an explicit name, a single
non-empty legend L makes the resulting name L, while legends equal to the
default list holding one empty string (which is also what an absent legends
argument resolves to) makes the resulting name "keycap". -/
theorem c4_name_derivation (L : String) (hL : L ≠ "") :
    constructedName none [L] = some L ∧ constructedName none [""] = some "keycap" := by
  constructor
  · simp [constructedName, hL]
  · simp [constructedName]

theorem c4_name_derivation_witness :
    constructedName none ["Q"] = some "Q" ∧ constructedName none [""] = some "keycap" :=
  c4_name_derivation "Q" (by decide)

/-- C7: the size-tag name transform prepends the tag when it is absent,
leaves the name unchanged when the tag is already present under the
case-sensitive string-prefix test, and is therefore idempotent. -/
theorem c7_size_tag_idempotence (tag n : String) :
    (startswith n tag = false → prefixName tag n = tag ++ n) ∧
    (startswith n tag = true → prefixName tag n = n) ∧
    prefixName tag (prefixName tag n) = prefixName tag n := by
  refine ⟨?_, ?_, ?_⟩
  · intro h
    simp [prefixName, h]
  · intro h
    simp [prefixName, h]
  · by_cases h : startswith n tag
    · simp [prefixName, h]
    · simp [prefixName, h, startswith_append]

theorem c7_size_tag_idempotence_witness :
    prefixName "1.25U_" "existing" = "1.25U_" ++ "existing" ∧
    prefixName "1.25U_" "1.25U_existing" = "1.25U_existing" ∧
    prefixName "1.25U_" (prefixName "1.25U_" "existing") =
      prefixName "1.25U_" "existing" :=
  ⟨(c7_size_tag_idempotence "1.25U_" "existing").1 (by decide),
   (c7_size_tag_idempotence "1.25U_" "1.25U_existing").2.1 (by decide),
   (c7_size_tag_idempotence "1.25U_" "existing").2.2⟩

/-- C10: make_legend_command leaves the base keycap completely unmodified:
name, output path, render, and file type are set only on the deep copy, so
after the call the base keycap — in particular its name, render, and
file_type — equals its value before the call. -/
theorem c10_legend_frame (fs : String → Bool) (k : Keycap) (out : String) (force : Bool) :
    (make_legend_command fs k out force).1 = k ∧
    (make_legend_command fs k out force).1.name = k.name ∧
    (make_legend_command fs k out force).1.render = k.render ∧
    (make_legend_command fs k out force).1.file_type = k.file_type := by
  have h : (make_legend_command fs k out force).1 = k := by
    unfold make_legend_command
    by_cases h1 : k.legends = [""]
    · simp [h1]
    · by_cases h2 : should_skip_file fs out (k.name ++ "_legends") "stl" force
      · simp [h1, h2]
      · simp [h1, h2]
  exact ⟨h, by rw [h], by rw [h], by rw [h]⟩

/-- C6: an invocation whose external process exits non-zero still yields
the captured combined output as its result instead of raising, and the
batch collects exactly one result for every invocation, so one failing
invocation never aborts the batch or prevents sibling invocations from
completing and being collected. -/
theorem c6_runner_fault_tolerance (world : String → ProcResult) (cmds : List String)
    (cmd : String) (_hmem : cmd ∈ cmds) (_hfail : (world cmd).exitCode ≠ 0) :
    run_command world cmd = (world cmd).output ∧
    (run_batch world cmds).length = cmds.length ∧
    run_batch world cmds = cmds.map (fun c => (world c).output) := by
  refine ⟨?_, ?_, ?_⟩
  · simp [run_command]
  · simp [run_batch]
  · simp [run_batch, run_command]

theorem c6_runner_fault_tolerance_witness :
    run_command (fun _ => ⟨1, "Command failed"⟩) "badcmd" = "Command failed" ∧
    (run_batch (fun _ => ⟨1, "Command failed"⟩) ["badcmd", "okcmd"]).length = 2 ∧
    run_batch (fun _ => ⟨1, "Command failed"⟩) ["badcmd", "okcmd"] =
      ["badcmd", "okcmd"].map
        (fun c => ((fun _ => (⟨1, "Command failed"⟩ : ProcResult)) c).output) := by
  have h := c6_runner_fault_tolerance (fun _ => ⟨1, "Command failed"⟩)
    ["badcmd", "okcmd"] "badcmd" (by simp) (by decide)
  exact ⟨h.1, h.2.1, h.2.2⟩

theorem escSeq_isPrefixOf_append (l : List Char) :
    escSeq.isPrefixOf (escSeq ++ l) = true := by
  simp [ List.isPrefixOf_iff_prefix]

theorem escSeq_not_isPrefixOf_cons (c : Char) (hc : c ≠ '\'') (l : List Char) :
    escSeq.isPrefixOf (c :: l) = false := by
  rw [show escSeq = '\'' :: ['"', '\'', '"', '\''] from rfl]
  rw [List.isPrefixOf_cons₂]
  simp [Ne.symm hc]

/-- The escape of a string contains the five-character escape sequence
exactly once per single quote of the input, counting non-overlapping
occurrences left to right the way Python str.count does. -/
theorem cntEsc_escapeList (l : List Char) :
    cntEsc (escapeList l) = l.count '\'' := by
  induction l with
  | nil => simp [escapeList, cntEsc]
  | cons c cs ih =>
    by_cases hc : c = '\''
    · subst hc
      rw [show escapeList ('\'' :: cs) = escSeq ++ escapeList cs by rw [escapeList]; simp]
      rw [show escSeq ++ escapeList cs =
        '\'' :: ('"' :: '\'' :: '"' :: '\'' :: escapeList cs) from rfl]
      rw [cntEsc]
      rw [show ('"' :: '\'' :: '"' :: '\'' :: escapeList cs).drop 4 = escapeList cs from rfl]
      have hp : escSeq.isPrefixOf
          ('\'' :: ('"' :: '\'' :: '"' :: '\'' :: escapeList cs)) = true :=
        escSeq_isPrefixOf_append (escapeList cs)
      rw [hp]
      simp [ih, List.count_cons_self]
      omega
    · rw [show escapeList (c :: cs) = c :: escapeList cs by rw [escapeList]; simp [hc]]
      rw [cntEsc]
      rw [escSeq_not_isPrefixOf_cons c hc]
      rw [List.count_cons_of_ne (Ne.symm hc)]
      exact ih

theorem strContains_self (s : String) : strContains s s = true :=
  (strContains_iff s s).mpr (List.infix_refl _)

theorem sepJoin_contains (sep : String) (xs : List String) (x : String) (hx : x ∈ xs) :
    strContains (sepJoin sep xs) x = true := by
  induction xs with
  | nil => simp at hx
  | cons a ys ih =>
    cases ys with
    | nil =>
      rw [List.mem_singleton] at hx
      subst hx
      exact strContains_self x
    | cons b zs =>
      rcases List.mem_cons.mp hx with h1 | h2
      · subst h1
        rw [sepJoin]
        exact strContains_app_r _ _ _ (strContains_app_r _ _ _ (strContains_self x))
      · rw [sepJoin]
        exact strContains_app_l _ _ _ (ih h2)

theorem quote_contains (legends : List String) (l : String) (h : l ∈ legends) :
    strContains (quote legends) (dquote ++ escapeQuotes l ++ dquote) = true := by
  unfold quote
  apply strContains_app_r
  apply strContains_app_l
  exact sepJoin_contains _ _ _ (List.mem_map_of_mem _ h)

theorem strList_contains (xs : List String) (x : String) (h : x ∈ xs) :
    strContains (strList xs) (dquote ++ escapeQuotes x ++ dquote) = true := by
  unfold strList
  apply strContains_app_r
  apply strContains_app_l
  exact sepJoin_contains _ _ _ (List.mem_map_of_mem _ h)

/-- C8: every string value of a variant — the scalar string attributes as
well as every element of the legends, fonts, and render lists — serializes
with its single quotes escaped through the
close-quote/escaped-quote/reopen-quote idiom: the escaped value appears
double-quoted inside the serialized invocation, and the escape sequence
occurs exactly once per quote character of the value, so shell argument
boundaries survive. -/
theorem c8_quote_escaping (k : Keycap) (s : String)
    (hs : s = k.key_profile ∨ s = k.stem_type ∨ s ∈ k.legends ∨ s ∈ k.fonts ∨
      s ∈ k.render) :
    strContains (serialize k) (dquote ++ escapeQuotes s ++ dquote) = true ∧
    cntEsc (escapeQuotes s).data = s.data.count '\'' := by
  refine ⟨?_, cntEsc_escapeList s.data⟩
  rcases hs with rfl | rfl | hmem | hmem | hmem
  · have h1 := serialize_contains_param k "KEY_PROFILE" (qstr k.key_profile)
      (by simp [params])
    exact strContains_mono _ _ _
      (strContains_app_l _ _ _ (strContains_self (qstr k.key_profile))) h1
  · have h1 := serialize_contains_param k "STEM_TYPE" (qstr k.stem_type)
      (by simp [params])
    exact strContains_mono _ _ _
      (strContains_app_l _ _ _ (strContains_self (qstr k.stem_type))) h1
  · have h1 := serialize_contains_param k "LEGENDS" (quote k.legends)
      (by simp [params])
    exact strContains_mono _ _ _
      (strContains_app_l _ _ _ (quote_contains _ _ hmem)) h1
  · have h1 := serialize_contains_param k "LEGEND_FONTS" (strList k.fonts)
      (by simp [params])
    exact strContains_mono _ _ _
      (strContains_app_l _ _ _ (strList_contains _ _ hmem)) h1
  · have h1 := serialize_contains_param k "RENDER" (strList k.render)
      (by simp [params])
    exact strContains_mono _ _ _
      (strContains_app_l _ _ _ (strList_contains _ _ hmem)) h1

/-- A concrete keycap with a lone single quote as its first legend and as a
fonts element. -/
def kcQuote : Keycap :=
  { name := "apost", legends := [String.singleton '\'', "test"],
    fonts := [String.singleton '\''] }

theorem c8_quote_escaping_witness :
    (strContains (serialize kcQuote)
      (dquote ++ escapeQuotes (String.singleton '\'') ++ dquote) = true ∧
     cntEsc (escapeQuotes (String.singleton '\'')).data =
       (String.singleton '\'').data.count '\'') ∧
    (strContains (serialize kcQuote)
      (dquote ++ escapeQuotes kcQuote.key_profile ++ dquote) = true ∧
     cntEsc (escapeQuotes kcQuote.key_profile).data =
       kcQuote.key_profile.data.count '\'') :=
  ⟨c8_quote_escaping kcQuote (String.singleton '\'') (Or.inr (Or.inr (Or.inr (Or.inl
      (by simp [kcQuote]))))),
   c8_quote_escaping kcQuote kcQuote.key_profile (Or.inl rfl)⟩

theorem countP_set_eq (p : TStatus → Bool) :
    ∀ (l : List TStatus) (i : Nat) (v w : TStatus), l[i]? = some w →
      (l.set i v).countP p + (if p w then 1 else 0) =
        l.countP p + (if p v then 1 else 0)
  | [], i, v, w, h => by simp at h
  | a :: as, 0, v, w, h => by
    simp only [List.getElem?_cons_zero, Option.some.injEq] at h
    subst h
    simp [List.countP_cons]
    omega
  | a :: as, i + 1, v, w, h => by
    simp only [List.getElem?_cons_succ] at h
    have hrec := countP_set_eq p as i v w h
    simp [List.countP_cons]
    omega

/-- The runner invariant: the number of running invocations plus the free
semaphore permits always equals the configured capacity, and every
collected result index refers to a completed invocation. -/
theorem reachableR_invariant (k n : Nat) (s : RState) (h : ReachableR k n s) :
    countRunning s.tasks + s.sem = k ∧
    ∀ i ∈ s.results, s.tasks[i]? = some TStatus.done := by
  induction h with
  | init =>
    have h0 : countRunning (List.replicate n TStatus.pending) = 0 := by
      unfold countRunning
      apply List.countP_eq_zero.mpr
      intro st hst
      rw [List.eq_of_mem_replicate hst]
      decide
    refine ⟨?_, ?_⟩
    · simp [initState, h0]
    · simp [initState]
  | step hr hstep ih =>
    obtain ⟨ih1, ih2⟩ := ih
    cases hstep with
    | start i hi hs =>
      refine ⟨?_, ?_⟩
      · have hc := countP_set_eq (fun st => st == TStatus.running)
          _ i TStatus.running TStatus.pending hi
        simp only [countRunning] at ih1 ⊢
        simp at hc
        omega
      · intro j hj
        have hj2 := ih2 j hj
        have hne : i ≠ j := by
          intro e
          subst e
          rw [hi] at hj2
          simp at hj2
        simpa [List.getElem?_set_ne hne] using hj2
    | finish i hi =>
      refine ⟨?_, ?_⟩
      · have hc := countP_set_eq (fun st => st == TStatus.running)
          _ i TStatus.done TStatus.running hi
        simp only [countRunning] at ih1 ⊢
        simp at hc
        omega
      · intro j hj
        rcases List.mem_append.mp hj with hj1 | hj2
        · have hdone := ih2 j hj1
          have hne : i ≠ j := by
            intro e
            subst e
            rw [hi] at hdone
            simp at hdone
          simpa [List.getElem?_set_ne hne] using hdone
        · rw [List.mem_singleton] at hj2
          subst hj2
          rename_i st
          have hlt : j < st.tasks.length := by
            by_contra hc
            push_neg at hc
            rw [List.getElem?_eq_none hc] at hi
            simp at hi
          simp [List.getElem?_set_self hlt]

/-- C9: in every reachable state of the runner, at most maxConcurrent
invocations are simultaneously running (the invocations are listed in
planned submission order in the state), and the collected results — which
the model appends in completion order — refer only to completed
invocations. -/
theorem c9_concurrency_bound (k n : Nat) (s : RState) (h : ReachableR k n s) :
    countRunning s.tasks ≤ k ∧
    ∀ i ∈ s.results, s.tasks[i]? = some TStatus.done := by
  obtain ⟨h1, h2⟩ := reachableR_invariant k n s h
  exact ⟨by omega, h2⟩

theorem c9_concurrency_bound_witness :
    countRunning ((List.replicate 2 TStatus.pending).set 0 TStatus.running) ≤ 1 ∧
    ∀ i ∈ ([] : List Nat),
      ((List.replicate 2 TStatus.pending).set 0 TStatus.running)[i]? =
        some TStatus.done := by
  have hstep : RStep (initState 1 2)
      ⟨(initState 1 2).sem - 1, (initState 1 2).tasks.set 0 TStatus.running,
        (initState 1 2).results⟩ :=
    RStep.start (initState 1 2) 0 (by simp [initState]) (by simp [initState])
  exact c9_concurrency_bound 1 2 _ (ReachableR.step ReachableR.init hstep)

/-- C2: with a single target variant, an existing output artifact and force
off yield a plan with zero invocations for it, while force on yields
exactly one invocation regardless of existence. -/
theorem c2_planner_skip_law (fs : String → Bool) (k : Keycap) (out ft : String) :
    (fs (out ++ "/" ++ k.name ++ "." ++ ft) = true →
      (make_commands fs ⟨out, [], false, false, ft⟩ [k]).2.1 = []) ∧
    (make_commands fs ⟨out, [], false, true, ft⟩ [k]).2.1.length = 1 := by
  constructor
  · intro hex
    simp [make_commands, process_all_keycaps, make_keycap_command, should_skip_file, hex]
  · simp [make_commands, process_all_keycaps, make_keycap_command, should_skip_file]

theorem c2_planner_skip_law_witness :
    (make_commands (fun _ => true) ⟨"out", [], false, false, "stl"⟩
      [{ name := "kc" }]).2.1 = [] ∧
    (make_commands (fun _ => true) ⟨"out", [], false, true, "stl"⟩
      [{ name := "kc" }]).2.1.length = 1 :=
  ⟨(c2_planner_skip_law (fun _ => true) { name := "kc" } "out" "stl").1 rfl,
   (c2_planner_skip_law (fun _ => true) { name := "kc" } "out" "stl").2⟩

theorem find_and_make_no_match (fs : String → Bool) (args : Args) (n : String)
    (ks : List Keycap) (h : ∀ k ∈ ks, (lower k.name == lower n) = false) :
    find_and_make fs args n ks = (ks, [], false) := by
  induction ks with
  | nil => rfl
  | cons k ks ih =>
    have hk := h k (by simp)
    rw [find_and_make, hk]
    simp [ih fun x hx => h x (by simp [hx])]

theorem process_names_no_match (fs : String → Bool) (args : Args)
    (names : List String) (ks : List Keycap)
    (h : ∀ n ∈ names, ∀ k ∈ ks, (lower k.name == lower n) = false) :
    process_names fs args names ks =
      (ks, [], names.map (fun n => "Could not find a keycap named " ++ n)) := by
  induction names with
  | nil => rfl
  | cons n rest ih =>
    have h1 : find_and_make fs args n ks = (ks, [], false) :=
      find_and_make_no_match fs args n ks (h n (by simp))
    rw [process_names, h1]
    simp [ih fun m hm => h m (by simp [hm])]

/-- C5: when every requested name has no catalog match under the
case-insensitive comparison, planning yields zero invocations and exactly
one NotFound warning per unmatched name; the planner is a total function,
so no exception is raised. -/
theorem c5_unknown_name_law (fs : String → Bool) (keycaps : List Keycap) (args : Args)
    (hne : args.names ≠ [])
    (hmiss : ∀ n ∈ args.names, ∀ k ∈ keycaps, (lower k.name == lower n) = false) :
    (make_commands fs args keycaps).2.1 = [] ∧
    (make_commands fs args keycaps).2.2 =
      args.names.map (fun n => "Could not find a keycap named " ++ n) := by
  unfold make_commands
  rw [if_pos hne]
  unfold process_specific_keycaps
  rw [process_names_no_match fs args args.names keycaps hmiss]
  exact ⟨rfl, rfl⟩

theorem c5_unknown_name_law_witness :
    (make_commands (fun _ => false) ⟨"out", ["doesNotExist"], false, true, "stl"⟩
      [{ name := "kc" }]).2.1 = [] ∧
    (make_commands (fun _ => false) ⟨"out", ["doesNotExist"], false, true, "stl"⟩
      [{ name := "kc" }]).2.2 =
      ["doesNotExist"].map (fun n => "Could not find a keycap named " ++ n) :=
  c5_unknown_name_law (fun _ => false) [{ name := "kc" }]
    ⟨"out", ["doesNotExist"], false, true, "stl"⟩ (by decide) (by decide)

/-- C3: with includeLegends set, a target variant whose legends differ from
the empty-legend default gets exactly one legend invocation appended
immediately after its own keycap invocation — unless the same
existence/force skip test removes it — with the artifact named by the
_legends suffix and the fixed legend file type "stl" independent of the
requested file type; a variant whose legends equal the default yields no
legend invocation. -/
theorem c3_legend_companion_law (fs : String → Bool) (k : Keycap) (out ft : String)
    (force : Bool) :
    (k.legends = [""] →
      (make_commands fs ⟨out, [], true, force, ft⟩ [k]).2.1 =
        (make_keycap_command fs k out ft force).2.toList) ∧
    (k.legends ≠ [""] →
      (make_commands fs ⟨out, [], true, force, ft⟩ [k]).2.1 =
        (make_keycap_command fs k out ft force).2.toList ++
          (if should_skip_file fs out (k.name ++ "_legends") "stl" force then []
           else [serialize { k with
             name := k.name ++ "_legends"
             output_path := out
             render := ["legends"]
             file_type := "stl" }])) := by
  constructor
  · intro h
    by_cases hbase : should_skip_file fs out k.name ft force = true
    · simp [make_commands, process_all_keycaps, make_legend_command, make_keycap_command,
        h, hbase]
    · simp [make_commands, process_all_keycaps, make_legend_command, make_keycap_command,
        h, hbase]
  · intro h
    by_cases hbase : should_skip_file fs out k.name ft force = true
    · by_cases hskip : should_skip_file fs out (k.name ++ "_legends") "stl" force = true
      · simp [make_commands, process_all_keycaps, make_legend_command, make_keycap_command,
          h, hbase, hskip]
      · simp [make_commands, process_all_keycaps, make_legend_command, make_keycap_command,
          h, hbase, hskip]
    · by_cases hskip : should_skip_file fs out (k.name ++ "_legends") "stl" force = true
      · simp [make_commands, process_all_keycaps, make_legend_command, make_keycap_command,
          h, hbase, hskip]
      · simp [make_commands, process_all_keycaps, make_legend_command, make_keycap_command,
          h, hbase, hskip]

/-- A concrete blank keycap: its legends are the empty-legend default. -/
def kcBlank : Keycap := { name := "blank" }

/-- A concrete keycap with one real legend. -/
def kcLegendA : Keycap := { name := "a", legends := ["A"] }

theorem c3_legend_companion_law_witness :
    ((make_commands (fun _ => false) ⟨"out", [], true, true, "stl"⟩ [kcBlank]).2.1 =
      (make_keycap_command (fun _ => false) kcBlank "out" "stl" true).2.toList) ∧
    ((make_commands (fun _ => false) ⟨"out", [], true, true, "stl"⟩ [kcLegendA]).2.1 =
      (make_keycap_command (fun _ => false) kcLegendA "out" "stl" true).2.toList ++
        (if should_skip_file (fun _ => false) "out" (kcLegendA.name ++ "_legends")
            "stl" true then []
         else [serialize { kcLegendA with
           name := kcLegendA.name ++ "_legends"
           output_path := "out"
           render := ["legends"]
           file_type := "stl" }])) :=
  ⟨(c3_legend_companion_law (fun _ => false) kcBlank "out" "stl" true).1 rfl,
   (c3_legend_companion_law (fun _ => false) kcLegendA "out" "stl" true).2 (by decide)⟩

/-- A concrete keycap with the formatting-contract example values: the four
test legends, the default key rotation triple, and two fonts. -/
def kcFormat : Keycap :=
  { name := "wit", legends := ["1", "", "!", "F1"], fonts := ["Arial", "Arial"] }

set_option maxRecDepth 8192 in
/-- C1 counterexample: the fonts attribute is a list-of-strings attribute,
yet the serialized invocation carries it with a single space after the
comma and does not contain the no-space form, refuting the claim that
every list-of-strings attribute serializes without spaces after commas
(the repository tests pin exactly this spaced form). -/
theorem c1_counterexample :
    strContains (serialize kcFormat) "LEGEND_FONTS=[\"Arial\", \"Arial\"]" = true ∧
    strContains (serialize kcFormat) "LEGEND_FONTS=[\"Arial\",\"Arial\"]" = false := by
  constructor
  · decide
  · decide

/-- C1 (amended): the legends attribute serializes as a bracketed literal
with elements individually double-quoted and no space after commas, while
numeric list attributes keep a single space after each comma, and the other
list-of-strings attributes (fonts, render) also keep the single space, with
elements double-quoted. -/
theorem c1_list_formatting (k : Keycap)
    (hleg : k.legends = ["1", "", "!", "F1"])
    (hrot : k.key_rotation = [⟨"0"⟩, ⟨"110.1"⟩, ⟨"-90"⟩])
    (hfonts : k.fonts = ["Arial", "Arial"]) :
    strContains (serialize k) "LEGENDS=[\"1\",\"\",\"!\",\"F1\"]" = true ∧
    strContains (serialize k) "KEY_ROTATION=[0, 110.1, -90]" = true ∧
    strContains (serialize k) "LEGEND_FONTS=[\"Arial\", \"Arial\"]" = true := by
  refine ⟨?_, ?_, ?_⟩
  · have h := serialize_contains_param k "LEGENDS" (quote k.legends) (by simp [params])
    rw [hleg] at h
    rw [show ("LEGENDS" ++ "=" ++ quote ["1", "", "!", "F1"]) =
      "LEGENDS=[\"1\",\"\",\"!\",\"F1\"]" by decide] at h
    exact h
  · have h := serialize_contains_param k "KEY_ROTATION" (numList k.key_rotation)
      (by simp [params])
    rw [hrot] at h
    rw [show ("KEY_ROTATION" ++ "=" ++ numList [⟨"0"⟩, ⟨"110.1"⟩, ⟨"-90"⟩]) =
      "KEY_ROTATION=[0, 110.1, -90]" by decide] at h
    exact h
  · have h := serialize_contains_param k "LEGEND_FONTS" (strList k.fonts)
      (by simp [params])
    rw [hfonts] at h
    rw [show ("LEGEND_FONTS" ++ "=" ++ strList ["Arial", "Arial"]) =
      "LEGEND_FONTS=[\"Arial\", \"Arial\"]" by decide] at h
    exact h

theorem c1_list_formatting_witness :
    strContains (serialize kcFormat) "LEGENDS=[\"1\",\"\",\"!\",\"F1\"]" = true ∧
    strContains (serialize kcFormat) "KEY_ROTATION=[0, 110.1, -90]" = true ∧
    strContains (serialize kcFormat) "LEGEND_FONTS=[\"Arial\", \"Arial\"]" = true :=
  c1_list_formatting kcFormat rfl rfl rfl
